import Mathlib

set_option maxHeartbeats 1000000

/-!
Verification of the certificate-authority trust store
(lib/services/local/trust.go) over a shallow embedding.

The store itself (the CA service) is embedded directly from the source.
Its external collaborators — versioned key-value backend, CA serializer,
structural validator, semantic-equivalence predicate — are not part of the
shown sources and are modelled from the spec's contracts (sections 2 and 6).
-/

namespace Trust

/-- Backend keys are byte strings, modelled as lists of characters.
backend.Key joins path parts with the '/' separator and a leading
separator, e.g. the key of parts ["authorities", t, n] is "/authorities/t/n". -/
abbrev Key := List Char

/-- Modelled from the spec: backend.Key (missing from the shown sources) —
joins parts with a leading separator. -/
def keyJoin : List String → Key
  | [] => []
  | p :: rest => '/' :: p.data ++ keyJoin rest

/-- Modelled from the spec: backend.ExactKey (missing from the shown sources) —
the exact-prefix form of a key, with a trailing separator; together with the
range-end helper it makes a scan cover precisely the keys extending it. -/
def exactKey (parts : List String) : Key := keyJoin parts ++ ['/']

def authoritiesPfx : String := "authorities"

def deactivatedPfx : String := "deactivated"

structure CertAuthID where
  type : String
  domainName : String
deriving DecidableEq

/-- Modelled from the spec: CertAuthID.Check (missing from the shown sources) —
the identity must satisfy a structural check before use as a key. -/
def CertAuthID.check (id : CertAuthID) : Bool :=
  decide (id.type ≠ "") && decide (id.domainName ≠ "")

/-- activeKey builds the active key variant for the supplied ca id. -/
def activeKey (id : CertAuthID) : Key :=
  keyJoin [authoritiesPfx, id.type, id.domainName]

/-- inactiveKey builds the inactive key variant for the supplied ca id. -/
def inactiveKey (id : CertAuthID) : Key :=
  keyJoin [authoritiesPfx, deactivatedPfx, id.type, id.domainName]

/-- Certificate authority record (types.CertAuthority): identity, role map,
key material, and the backend metadata round-tripped through serialization. -/
structure CAData where
  caType : String
  domainName : String
  roleMap : List (String × List String)
  signingKeys : List Nat
  publicKeys : List Nat
  revision : Nat
  resourceID : Nat
  expiry : Option Nat
deriving DecidableEq

def CAData.getID (ca : CAData) : CertAuthID := ⟨ca.caType, ca.domainName⟩

/-- Modelled from the spec: services.ValidateCertAuthority (missing from the
shown sources) — structural acceptability check, independent of storage state. -/
def validateCertAuthority (ca : CAData) : Bool := ca.getID.check

/-- Modelled from the spec: types.RemoveCASecrets (missing from the shown
sources) — strips secret signing-key material. -/
def removeCASecrets (ca : CAData) : CAData := { ca with signingKeys := [] }

/-- setSigningKeys strips secrets unless loadSigningKeys is set
(from trust.go). -/
def setSigningKeys (ca : CAData) (loadSigningKeys : Bool) : CAData :=
  if loadSigningKeys then ca else removeCASecrets ca

/-- Modelled from the spec: services.CertAuthoritiesEquivalent (missing from
the shown sources) — semantic equivalence ignoring backend-attached metadata
(Revision / ResourceID). -/
def certAuthoritiesEquivalent (a b : CAData) : Bool :=
  decide (a.caType = b.caType) && decide (a.domainName = b.domainName) &&
  decide (a.roleMap = b.roleMap) && decide (a.signingKeys = b.signingKeys) &&
  decide (a.publicKeys = b.publicKeys) && decide (a.expiry = b.expiry)

/-- Serialized bytes of a CA record; a corrupt blob fails deserialization. -/
inductive Value where
  | ca (d : CAData)
  | corrupt (blob : Nat)
deriving DecidableEq

/-- Modelled from the spec: services.MarshalCertAuthority (missing from the
shown sources). -/
def marshalCertAuthority (d : CAData) : Value := .ca d

/-- Unmarshal options attach ResourceID / Expires / Revision metadata sourced
from the backend item. -/
structure UnmarshalOpts where
  resourceID : Option Nat := none
  expires : Option (Option Nat) := none
  revision : Option Nat := none

/-- Modelled from the spec: services.UnmarshalCertAuthority (missing from the
shown sources) — fallible decode, round-tripping the backend metadata that is
supplied through opts. -/
def unmarshalCertAuthority (v : Value) (opts : UnmarshalOpts) : Option CAData :=
  match v with
  | .corrupt _ => none
  | .ca d => some { d with
      resourceID := opts.resourceID.getD d.resourceID,
      expiry := opts.expires.getD d.expiry,
      revision := opts.revision.getD d.revision }

/-- A stored backend item: (Key, Value, Expires, ResourceID, Revision). -/
structure Item where
  key : Key
  value : Value
  expires : Option Nat
  id : Nat
  revision : Nat
deriving DecidableEq

/-- The durable backend: stored items plus counters from which fresh
revisions and resource ids are assigned. -/
structure BackendState where
  items : List Item
  nextRev : Nat
  nextID : Nat
deriving DecidableEq

def lookupItem (k : Key) : List Item → Option Item
  | [] => none
  | it :: rest => if it.key = k then some it else lookupItem k rest

def setItem (it : Item) : List Item → List Item
  | [] => [it]
  | x :: xs => if x.key = it.key then it :: xs else x :: setItem it xs

def removeItem (k : Key) : List Item → List Item
  | [] => []
  | x :: xs => if x.key = k then removeItem k xs else x :: removeItem k xs

/-- Error taxonomy: typed trace errors plus the backend's condition-failure
sentinels. `generic` is trace.Errorf — an error carrying only a message,
with no kind attached. -/
inductive Err where
  | validation
  | notFound
  | alreadyExists (names : List String)
  | compareFailed
  | conditionFailed
  | generic (msg : String)
deriving DecidableEq

/-- Conflict kind per the spec taxonomy: the optimistic-concurrency error
produced by revision mismatch and failed compare-and-swap
(trace.CompareFailed). -/
def Err.isConflict : Err → Bool
  | .compareFailed => true
  | _ => false

/-- NotFound kind (trace.NotFound / the backend's missing-key error). -/
def Err.isNotFoundKind : Err → Bool
  | .notFound => true
  | _ => false

/-- Modelled from the spec: backend Get(key) gives Item or NotFound. -/
def bGet (st : BackendState) (k : Key) : Except Err Item :=
  match lookupItem k st.items with
  | none => .error .notFound
  | some it => .ok it

/-- Modelled from the spec: backend Put(Item) — unconditional write; the
backend assigns a fresh revision and resource id and returns the stored item. -/
def bPut (st : BackendState) (it : Item) : Item × BackendState :=
  let stored : Item := { it with revision := st.nextRev, id := st.nextID }
  (stored,
   { items := setItem stored st.items,
     nextRev := st.nextRev + 1, nextID := st.nextID + 1 })

/-- Modelled from the spec: range scan with exact-prefix boundaries — the
range [pfx, rangeEnd pfx) covers precisely the stored items whose key
extends the scanned exact prefix. -/
def rangeScan (st : BackendState) (pfx : Key) : List Item :=
  st.items.filter (fun it => decide (pfx <+: it.key))

/-- Modelled from the spec: DeleteRange over an exact prefix. -/
def bDeleteRange (st : BackendState) (pfx : Key) : BackendState :=
  { st with items := st.items.filter (fun it => decide (¬ (pfx <+: it.key))) }

/-- Modelled from the spec: backend CompareAndSwap(old, new) — atomically
replaces the item at old's key only when the stored value equals old's value,
failing with the Conflict kind otherwise. -/
def bCompareAndSwap (st : BackendState) (old new_ : Item) :
    Except Err Item × BackendState :=
  match lookupItem old.key st.items with
  | none => (.error .compareFailed, st)
  | some cur =>
    if cur.value = old.value then
      let put := bPut st new_
      (.ok put.1, put.2)
    else (.error .compareFailed, st)

/-- Modelled from the spec: backend ConditionalUpdate(Item) — the backend
atomically compares its stored revision to the supplied one as part of the
write, failing with the Conflict kind on mismatch. -/
def bConditionalUpdate (st : BackendState) (it : Item) :
    Except Err Item × BackendState :=
  match lookupItem it.key st.items with
  | none => (.error .compareFailed, st)
  | some cur =>
    if cur.revision = it.revision then
      let put := bPut st it
      (.ok put.1, put.2)
    else (.error .compareFailed, st)

/-- A precondition attached to one action within an atomic batch. -/
inductive Condition where
  | notExists
  | mustExist
  | revisionIs (r : Nat)
  | whatever
deriving DecidableEq

/-- The effect of one action within an atomic batch. -/
inductive Action where
  | put (v : Value) (expires : Option Nat)
  | delete
deriving DecidableEq

/-- (Key, Condition, Effect) — the unit submitted in atomic batches. -/
structure ConditionalAction where
  key : Key
  cond : Condition
  act : Action
deriving DecidableEq

def condHolds (st : BackendState) (c : ConditionalAction) : Bool :=
  match c.cond with
  | .notExists => (lookupItem c.key st.items).isNone
  | .mustExist => (lookupItem c.key st.items).isSome
  | .revisionIs r =>
    match lookupItem c.key st.items with
    | some it => decide (it.revision = r)
    | none => false
  | .whatever => true

def applyAction (st : BackendState) (c : ConditionalAction) : BackendState :=
  match c.act with
  | .put v e =>
    { items := setItem
        { key := c.key, value := v, expires := e,
          id := st.nextID, revision := st.nextRev } st.items,
      nextRev := st.nextRev + 1, nextID := st.nextID + 1 }
  | .delete => { st with items := removeItem c.key st.items }

def applyActs (st : BackendState) (acts : List ConditionalAction) : BackendState :=
  acts.foldl applyAction st

/-- Modelled from the spec: backend AtomicWrite — every action's precondition
is checked and every effect applied as one indivisible unit; if any condition
fails the batch fails with the condition-failed sentinel and the state is
untouched. -/
def bAtomicWrite (st : BackendState) (acts : List ConditionalAction) :
    Except Err Unit × BackendState :=
  if acts.all (condHolds st) then (.ok (), applyActs st acts)
  else (.error .conditionFailed, st)

/-! ## The CA trust store (embedded from lib/services/local/trust.go) -/

/-- DeleteAllCertAuthorities deletes all certificate authorities of a certain
type; caType is a path segment, scanned with exact-prefix boundaries. -/
def deleteAllCertAuthorities (st : BackendState) (caType : String) : BackendState :=
  bDeleteRange st (exactKey [authoritiesPfx, caType])

/-- The loop body of CreateCertAuthorities: collect the distinct cluster
names, validate each CA, and emit per CA a NotExists-guarded Put of the
active slot plus a defensive unconditional Delete of the inactive slot. -/
def createCondacts :
    List CAData → List String → List ConditionalAction →
    Except Err (List String × List ConditionalAction)
  | [], names, acts => .ok (names, acts)
  | ca :: rest, names, acts =>
    let names' := if ca.domainName ∈ names then names else names ++ [ca.domainName]
    if validateCertAuthority ca then
      createCondacts rest names'
        (acts ++
          [⟨activeKey ca.getID, .notExists, .put (marshalCertAuthority ca) ca.expiry⟩,
           ⟨inactiveKey ca.getID, .whatever, .delete⟩])
    else .error .validation

/-- CreateCertAuthorities creates multiple cert authorities atomically; a
condition failure of the batch is reported as AlreadyExists naming the
collected cluster names. -/
def createCertAuthorities (st : BackendState) (cas : List CAData) :
    Except Err Unit × BackendState :=
  match createCondacts cas [] [] with
  | .error e => (.error e, st)
  | .ok (names, acts) =>
    match bAtomicWrite st acts with
    | (.error .conditionFailed, st') => (.error (.alreadyExists names), st')
    | r => r

/-- GetCertAuthority returns the certificate authority with the given id from
the active slot; loadSigningKeys controls whether signing keys are kept. -/
def getCertAuthority (st : BackendState) (id : CertAuthID)
    (loadSigningKeys : Bool) : Except Err CAData :=
  if id.check then
    match bGet st (activeKey id) with
    | .error e => .error e
    | .ok item =>
      match unmarshalCertAuthority item.value
          ⟨some item.id, some item.expires, some item.revision⟩ with
      | none => .error (.generic "failed to unmarshal cert authority")
      | some ca =>
        if validateCertAuthority ca then .ok (setSigningKeys ca loadSigningKeys)
        else .error .validation
  else .error .validation

/-- The write-skipping check of UpsertCertAuthority: true when a
value-equivalent record already occupies the active slot. -/
def upsertSkip (st : BackendState) (ca : CAData) : Bool :=
  match getCertAuthority st ca.getID true with
  | .ok existing => certAuthoritiesEquivalent existing ca
  | .error _ => false

/-- UpsertCertAuthority: skip writes that would have no effect, otherwise
overwrite the active slot unconditionally. -/
def upsertCertAuthority (st : BackendState) (ca : CAData) :
    Except Err Unit × BackendState :=
  if validateCertAuthority ca then
    if upsertSkip st ca then (.ok (), st)
    else
      let item : Item :=
        { key := activeKey ca.getID, value := marshalCertAuthority ca,
          expires := ca.expiry, id := ca.resourceID, revision := ca.revision }
      ((.ok ()), (bPut st item).2)
  else (.error .validation, st)

/-- UpdateCertAuthority updates an existing cert authority if the revisions
match, returning a clone carrying the newly assigned revision/resource id. -/
def updateCertAuthority (st : BackendState) (ca : CAData) :
    Except Err CAData × BackendState :=
  if validateCertAuthority ca then
    let item : Item :=
      { key := activeKey ca.getID, value := marshalCertAuthority ca,
        expires := ca.expiry, id := ca.resourceID, revision := ca.revision }
    match bConditionalUpdate st item with
    | (.error e, st') => (.error e, st')
    | (.ok lease, st') =>
      (.ok { ca with revision := lease.revision, resourceID := lease.id }, st')
  else (.error .validation, st)

/-- The key CompareAndSwapCertAuthority operates on (backend.Key over
the authorities path with the CA's type and name). -/
def casKey (ca : CAData) : Key :=
  keyJoin [authoritiesPfx, ca.caType, ca.domainName]

/-- The swap phase of CompareAndSwapCertAuthority: a single-key backend
compare-and-swap using the just-read item as the base; a backend Conflict is
re-reported as Conflict. -/
def casSwapStep (st : BackendState) (new_ : CAData) (actualItem : Item) :
    Except Err Unit × BackendState :=
  let newItem : Item :=
    { key := casKey new_, value := marshalCertAuthority new_,
      expires := new_.expiry, id := 0, revision := new_.revision }
  match bCompareAndSwap st actualItem newItem with
  | (.error .compareFailed, st') => (.error .compareFailed, st')
  | (.error e, st') => (.error e, st')
  | (.ok _, st') => (.ok (), st')

/-- CompareAndSwapCertAuthority updates the cert authority value if the
existing value matches the expected parameter under the semantic equivalence
predicate, failing with the Conflict kind otherwise. -/
def compareAndSwapCertAuthority (st : BackendState) (new_ expected : CAData) :
    Except Err Unit × BackendState :=
  if validateCertAuthority new_ then
    match bGet st (casKey new_) with
    | .error e => (.error e, st)
    | .ok actualItem =>
      match unmarshalCertAuthority actualItem.value ⟨none, none, none⟩ with
      | none => (.error (.generic "failed to unmarshal cert authority"), st)
      | some actual =>
        if certAuthoritiesEquivalent actual expected then
          casSwapStep st new_ actualItem
        else (.error .compareFailed, st)
  else (.error .validation, st)

def notActiveMsg (id : CertAuthID) : String :=
  "can not deactivate cert authority " ++ id.domainName ++ " of type " ++
    id.type ++ " (not a currently active ca)"

def notInactiveMsg (id : CertAuthID) : String :=
  "can not activate cert authority " ++ id.domainName ++ " of type " ++
    id.type ++ " (not a currently inactive ca)"

def deactConflictMsg (id : CertAuthID) : String :=
  "failed to deactivate cert authority " ++ id.domainName ++ " of type " ++
    id.type ++ " due to concurrent modification"

def actConflictMsg (id : CertAuthID) : String :=
  "failed to activate cert authority " ++ id.domainName ++ " of type " ++
    id.type ++ " due to concurrent modification"

/-- The atomic batch submitted by DeactivateCertAuthority: delete the active
slot under RevisionEquals of the just-read item, and put the same bytes at
the inactive slot unconditionally. -/
def deactivateCondacts (id : CertAuthID) (item : Item) : List ConditionalAction :=
  [⟨activeKey id, .revisionIs item.revision, .delete⟩,
   ⟨inactiveKey id, .whatever, .put item.value item.expires⟩]

/-- The fenced-batch phase of DeactivateCertAuthority; a condition failure is
reported as a generic (trace.Errorf) concurrent-modification error. -/
def deactivateFence (st : BackendState) (id : CertAuthID) (item : Item) :
    Except Err Unit × BackendState :=
  match bAtomicWrite st (deactivateCondacts id item) with
  | (.error .conditionFailed, st') => (.error (.generic (deactConflictMsg id)), st')
  | r => r

/-- DeactivateCertAuthority moves a CertAuthority from the normal list to the
deactivated list: read the active item, then submit the fenced batch. -/
def deactivateCertAuthority (st : BackendState) (id : CertAuthID) :
    Except Err Unit × BackendState :=
  if id.check then
    match bGet st (activeKey id) with
    | .error .notFound => (.error (.generic (notActiveMsg id)), st)
    | .error e => (.error e, st)
    | .ok item => deactivateFence st id item
  else (.error .validation, st)

/-- The atomic batch submitted by ActivateCertAuthority: the mirror image of
the deactivation batch. -/
def activateCondacts (id : CertAuthID) (item : Item) : List ConditionalAction :=
  [⟨inactiveKey id, .revisionIs item.revision, .delete⟩,
   ⟨activeKey id, .whatever, .put item.value item.expires⟩]

/-- The fenced-batch phase of ActivateCertAuthority. -/
def activateFence (st : BackendState) (id : CertAuthID) (item : Item) :
    Except Err Unit × BackendState :=
  match bAtomicWrite st (activateCondacts id item) with
  | (.error .conditionFailed, st') => (.error (.generic (actConflictMsg id)), st')
  | r => r

/-- ActivateCertAuthority moves a CertAuthority from the deactivated list to
the normal list: read the inactive item, then submit the fenced batch. -/
def activateCertAuthority (st : BackendState) (id : CertAuthID) :
    Except Err Unit × BackendState :=
  if id.check then
    match bGet st (inactiveKey id) with
    | .error .notFound => (.error (.generic (notInactiveMsg id)), st)
    | .error e => (.error e, st)
    | .ok item => activateFence st id item
  else (.error .validation, st)

/-- Modelled from the spec: CertAuthType.Check (missing from the shown
sources) — structural check of a CA type before use as a scan key. -/
def caTypeCheck (t : String) : Bool := decide (t ≠ "")

/-- The per-item decode step of GetCertAuthorities: unmarshal with the item's
metadata, validate, and strip secrets as requested; a failure yields no
authority for that listing slot. -/
def decodeListed (loadSigningKeys : Bool) (item : Item) : Option CAData :=
  match unmarshalCertAuthority item.value
      ⟨some item.id, some item.expires, some item.revision⟩ with
  | none => none
  | some ca =>
    if validateCertAuthority ca then some (setSigningKeys ca loadSigningKeys)
    else none

/-- GetCertAuthorities returns a list of authorities of a given type from the
active keyspace. The Go code preallocates the result slice at the length of
the scan and `continue`s past items that fail to unmarshal or validate, so a
skipped item leaves a nil hole in the returned slice; a hole is `none` here. -/
def getCertAuthorities (st : BackendState) (caType : String)
    (loadSigningKeys : Bool) : Except Err (List (Option CAData)) :=
  if caTypeCheck caType then
    .ok ((rangeScan st (exactKey [authoritiesPfx, caType])).map
      (decodeListed loadSigningKeys))
  else .error .validation

/-- The item written to the Active slot by Upsert/Update once the backend
has assigned fresh metadata. -/
def storedActive (st : BackendState) (ca : CAData) : Item :=
  { key := activeKey ca.getID, value := marshalCertAuthority ca,
    expires := ca.expiry, id := st.nextID, revision := st.nextRev }

/-- The backend state after a single write of the Active slot. -/
def afterActivePut (st : BackendState) (ca : CAData) : BackendState :=
  { items := setItem (storedActive st ca) st.items,
    nextRev := st.nextRev + 1, nextID := st.nextID + 1 }

/-! ## Concrete sample data -/

def caSample : CAData :=
  { caType := "host", domainName := "example.com",
    roleMap := [("admin", ["root"])], signingKeys := [7], publicKeys := [3],
    revision := 1, resourceID := 1, expiry := none }

def idSample : CertAuthID := ⟨"host", "example.com"⟩

def itemSample : Item :=
  { key := activeKey idSample, value := marshalCertAuthority caSample,
    expires := none, id := 1, revision := 1 }

def stSample : BackendState := { items := [itemSample], nextRev := 2, nextID := 2 }

def stEmpty : BackendState := { items := [], nextRev := 1, nextID := 1 }

/-- A sample CA record of an arbitrary type, name and metadata seed. -/
def caOf (t name : String) (k : Nat) : CAData :=
  { caType := t, domainName := name, roleMap := [],
    signingKeys := [k], publicKeys := [k], revision := k, resourceID := k,
    expiry := none }

/-- The active-slot backend item holding caOf t name k. -/
def itemOf (t name : String) (k : Nat) : Item :=
  { key := activeKey ⟨t, name⟩, value := marshalCertAuthority (caOf t name k),
    expires := none, id := k, revision := k }

/-- An active-slot item whose stored bytes fail deserialization. -/
def itemCorrupt : Item :=
  { key := activeKey ⟨"host", "corrupted"⟩, value := .corrupt 0,
    expires := none, id := 9, revision := 9 }

/-- A store holding one corrupted and three valid authorities of one type. -/
def stListing : BackendState :=
  { items := [itemCorrupt, itemOf "host" "n1" 1, itemOf "host" "n2" 2,
      itemOf "host" "n3" 3],
    nextRev := 10, nextID := 10 }

/-- A second CA for batch scenarios. -/
def caSecond : CAData :=
  { caType := "user", domainName := "other.example.com", roleMap := [],
    signingKeys := [8], publicKeys := [4], revision := 0, resourceID := 0,
    expiry := none }

/-- A store holding active records of two types, one type name a textual
prefix of the other. -/
def stTypes : BackendState :=
  { items := [itemOf "foo" "a" 1, itemOf "foo_some_suffix" "b" 2],
    nextRev := 3, nextID := 3 }

/-- The flattened conditional-action list CreateCertAuthorities submits. -/
def casActs : List CAData → List ConditionalAction
  | [] => []
  | ca :: rest =>
    ⟨activeKey ca.getID, .notExists, .put (marshalCertAuthority ca) ca.expiry⟩ ::
    ⟨inactiveKey ca.getID, .whatever, .delete⟩ :: casActs rest

/-- The cluster-name accumulator CreateCertAuthorities builds. -/
def namesAcc : List CAData → List String → List String
  | [], names => names
  | ca :: rest, names =>
    namesAcc rest
      (if ca.domainName ∈ names then names else names ++ [ca.domainName])

/-! ## Helper lemmas about the backend state -/

theorem lookupItem_key {k : Key} {items : List Item} {it : Item}
    (h : lookupItem k items = some it) : it.key = k := by
  induction items with
  | nil => simp [lookupItem] at h
  | cons x xs ih =>
    by_cases hx : x.key = k
    · simp [lookupItem, hx] at h
      rw [← h]; exact hx
    · simp [lookupItem, hx] at h
      exact ih h

theorem lookupItem_setItem_self (it : Item) (items : List Item) :
    lookupItem it.key (setItem it items) = some it := by
  induction items with
  | nil => simp [setItem, lookupItem]
  | cons x xs ih =>
    by_cases hx : x.key = it.key
    · simp [setItem, hx, lookupItem]
    · simp [setItem, hx, lookupItem, ih]

theorem lookupItem_setItem_ne {k : Key} (it : Item) (items : List Item)
    (h : k ≠ it.key) : lookupItem k (setItem it items) = lookupItem k items := by
  have hik : ¬ it.key = k := fun hh => h hh.symm
  induction items with
  | nil => simp [setItem, lookupItem, hik]
  | cons x xs ih =>
    by_cases hx : x.key = it.key
    · simp [setItem, hx, lookupItem, hik]
    · simp [setItem, hx, lookupItem, ih]

theorem lookupItem_removeItem_self (k : Key) (items : List Item) :
    lookupItem k (removeItem k items) = none := by
  induction items with
  | nil => simp [removeItem, lookupItem]
  | cons x xs ih =>
    by_cases hx : x.key = k
    · simp [removeItem, hx, ih]
    · simp [removeItem, hx, lookupItem, ih]

theorem lookupItem_removeItem_ne {k k' : Key} (items : List Item)
    (h : k' ≠ k) : lookupItem k' (removeItem k items) = lookupItem k' items := by
  have hkk : ¬ k = k' := fun hh => h hh.symm
  induction items with
  | nil => simp [removeItem]
  | cons x xs ih =>
    by_cases hx : x.key = k
    · simp [removeItem, hx, lookupItem, hkk, ih]
    · simp [removeItem, hx, lookupItem, ih]

theorem applyActs_cons (st : BackendState) (a : ConditionalAction)
    (acts : List ConditionalAction) :
    applyActs st (a :: acts) = applyActs (applyAction st a) acts := rfl

theorem lookupItem_applyAction_ne (st : BackendState) (c : ConditionalAction)
    {k : Key} (h : c.key ≠ k) :
    lookupItem k (applyAction st c).items = lookupItem k st.items := by
  cases hc : c.act with
  | put v e =>
    simp only [applyAction, hc]
    exact lookupItem_setItem_ne _ _ (fun hh => h hh.symm)
  | delete =>
    simp only [applyAction, hc]
    exact lookupItem_removeItem_ne _ (fun hh => h hh.symm)

theorem lookupItem_applyActs_ne (acts : List ConditionalAction)
    (st : BackendState) {k : Key} (h : ∀ a ∈ acts, a.key ≠ k) :
    lookupItem k (applyActs st acts).items = lookupItem k st.items := by
  induction acts generalizing st with
  | nil => rfl
  | cons a rest ih =>
    rw [applyActs_cons,
      ih (applyAction st a) (fun b hb => h b (List.mem_cons_of_mem a hb)),
      lookupItem_applyAction_ne st a (h a (List.mem_cons_self a rest))]

/-! ## Key-scheme lemmas -/

theorem activeKey_ne_inactiveKey (id : CertAuthID) :
    activeKey id ≠ inactiveKey id := by
  intro h
  have hl := congrArg List.length h
  simp [activeKey, inactiveKey, keyJoin, authoritiesPfx, deactivatedPfx] at hl

/-- A slash-terminated word is a prefix of another slash-separated word only
when the two words agree: the core of exact-prefix (vs naive textual-prefix)
matching. -/
theorem slash_pfx_eq : ∀ (a b r : List Char), '/' ∉ a → '/' ∉ b →
    (a ++ ['/'] <+: b ++ '/' :: r) → a = b := by
  intro a
  induction a with
  | nil =>
    intro b r _ hb h
    cases b with
    | nil => rfl
    | cons c bs =>
      rw [List.nil_append, List.cons_append] at h
      have h1 : ('/' : Char) = c := (List.cons_prefix_cons.mp h).1
      exact absurd (h1 ▸ List.mem_cons_self c bs) hb
  | cons x xs ih =>
    intro b r ha hb h
    cases b with
    | nil =>
      rw [List.cons_append, List.nil_append] at h
      have h1 : x = '/' := (List.cons_prefix_cons.mp h).1
      exact absurd (h1 ▸ List.mem_cons_self x xs) ha
    | cons y ys =>
      rw [List.cons_append, List.cons_append] at h
      have h' := List.cons_prefix_cons.mp h
      have hxs : xs = ys :=
        ih ys r (fun hm => ha (List.mem_cons_of_mem _ hm))
          (fun hm => hb (List.mem_cons_of_mem _ hm)) h'.2
      rw [h'.1, hxs]

/-- Exact-prefix scan boundaries never leak across CA types: if the exact key
of type t1 is a prefix of the active key of some CA of type t2 (types being
plain path segments, i.e. slash-free), then the types are equal. -/
theorem exactKey_pfx_active {t1 t2 n : String}
    (h1 : '/' ∉ t1.data) (h2 : '/' ∉ t2.data)
    (h : exactKey [authoritiesPfx, t1] <+: activeKey ⟨t2, n⟩) : t1 = t2 := by
  simp only [exactKey, activeKey, keyJoin, authoritiesPfx, List.append_nil,
    List.cons_append, List.append_assoc] at h
  have h3 := (List.cons_prefix_cons.mp h).2
  have h4 := (List.prefix_append_right_inj (String.data "authorities")).mp h3
  have h5 := (List.cons_prefix_cons.mp h4).2
  have h6 : t1.data = t2.data := slash_pfx_eq _ _ _ h1 h2 (by simpa using h5)
  exact congrArg String.mk h6

/-! ## Rotation lemmas -/

theorem deactivate_applyActs (st : BackendState) (id : CertAuthID) (item : Item) :
    applyActs st (deactivateCondacts id item) =
      { items :=
          setItem
            { key := inactiveKey id, value := item.value,
              expires := item.expires, id := st.nextID,
              revision := st.nextRev }
            (removeItem (activeKey id) st.items),
        nextRev := st.nextRev + 1, nextID := st.nextID + 1 } := rfl

theorem activate_applyActs (st : BackendState) (id : CertAuthID) (item : Item) :
    applyActs st (activateCondacts id item) =
      { items :=
          setItem
            { key := activeKey id, value := item.value,
              expires := item.expires, id := st.nextID,
              revision := st.nextRev }
            (removeItem (inactiveKey id) st.items),
        nextRev := st.nextRev + 1, nextID := st.nextID + 1 } := rfl

/-- When the just-read active item is still in place, the fenced deactivation
batch succeeds and moves the record wholesale into the inactive slot. -/
theorem deactivateFence_success (st : BackendState) (id : CertAuthID)
    (item : Item) (hread : lookupItem (activeKey id) st.items = some item) :
    deactivateFence st id item =
      (.ok (), applyActs st (deactivateCondacts id item)) ∧
    lookupItem (activeKey id)
      (applyActs st (deactivateCondacts id item)).items = none ∧
    lookupItem (inactiveKey id)
      (applyActs st (deactivateCondacts id item)).items =
      some { key := inactiveKey id, value := item.value,
             expires := item.expires, id := st.nextID,
             revision := st.nextRev } ∧
    (∀ k : Key, k ≠ activeKey id → k ≠ inactiveKey id →
      lookupItem k (applyActs st (deactivateCondacts id item)).items =
        lookupItem k st.items) := by
  have hall : (deactivateCondacts id item).all (condHolds st) = true := by
    simp [deactivateCondacts, condHolds, hread]
  refine ⟨?_, ?_, ?_, ?_⟩
  · simp [deactivateFence, bAtomicWrite, hall]
  · rw [deactivate_applyActs]
    exact (lookupItem_setItem_ne _ _ (activeKey_ne_inactiveKey id)).trans
      (lookupItem_removeItem_self _ _)
  · rw [deactivate_applyActs]
    exact lookupItem_setItem_self
      { key := inactiveKey id, value := item.value, expires := item.expires,
        id := st.nextID, revision := st.nextRev }
      (removeItem (activeKey id) st.items)
  · intro k hka hki
    rw [deactivate_applyActs]
    exact (lookupItem_setItem_ne _ _ hki).trans (lookupItem_removeItem_ne _ hka)

/-- When the revision condition fails, the fenced deactivation batch aborts
with a generic concurrent-modification error, leaving the state untouched. -/
theorem deactivateFence_fail (st : BackendState) (id : CertAuthID) (item : Item)
    (hfail : condHolds st ⟨activeKey id, .revisionIs item.revision, .delete⟩ = false) :
    deactivateFence st id item = (.error (.generic (deactConflictMsg id)), st) := by
  have hall : (deactivateCondacts id item).all (condHolds st) = false := by
    simp [deactivateCondacts, List.all_cons, hfail]
  simp [deactivateFence, bAtomicWrite, hall]

theorem deactivate_run (st : BackendState) (id : CertAuthID) (item : Item)
    (hchk : id.check = true)
    (hread : lookupItem (activeKey id) st.items = some item) :
    deactivateCertAuthority st id = deactivateFence st id item := by
  simp [deactivateCertAuthority, bGet, hchk, hread]

theorem deactivate_absent (st : BackendState) (id : CertAuthID)
    (hchk : id.check = true)
    (habs : lookupItem (activeKey id) st.items = none) :
    deactivateCertAuthority st id = (.error (.generic (notActiveMsg id)), st) := by
  simp [deactivateCertAuthority, bGet, hchk, habs]

/-- When the just-read inactive item is still in place, the fenced activation
batch succeeds and moves the record wholesale into the active slot. -/
theorem activateFence_success (st : BackendState) (id : CertAuthID)
    (item : Item) (hread : lookupItem (inactiveKey id) st.items = some item) :
    activateFence st id item =
      (.ok (), applyActs st (activateCondacts id item)) ∧
    lookupItem (inactiveKey id)
      (applyActs st (activateCondacts id item)).items = none ∧
    lookupItem (activeKey id)
      (applyActs st (activateCondacts id item)).items =
      some { key := activeKey id, value := item.value,
             expires := item.expires, id := st.nextID,
             revision := st.nextRev } ∧
    (∀ k : Key, k ≠ activeKey id → k ≠ inactiveKey id →
      lookupItem k (applyActs st (activateCondacts id item)).items =
        lookupItem k st.items) := by
  have hall : (activateCondacts id item).all (condHolds st) = true := by
    simp [activateCondacts, condHolds, hread]
  refine ⟨?_, ?_, ?_, ?_⟩
  · simp [activateFence, bAtomicWrite, hall]
  · rw [activate_applyActs]
    exact (lookupItem_setItem_ne _ _
      (fun hh => activeKey_ne_inactiveKey id hh.symm)).trans
      (lookupItem_removeItem_self _ _)
  · rw [activate_applyActs]
    exact lookupItem_setItem_self
      { key := activeKey id, value := item.value, expires := item.expires,
        id := st.nextID, revision := st.nextRev }
      (removeItem (inactiveKey id) st.items)
  · intro k hka hki
    rw [activate_applyActs]
    exact (lookupItem_setItem_ne _ _ hka).trans (lookupItem_removeItem_ne _ hki)

/-- When the revision condition fails, the fenced activation batch aborts
with a generic concurrent-modification error, leaving the state untouched. -/
theorem activateFence_fail (st : BackendState) (id : CertAuthID) (item : Item)
    (hfail : condHolds st ⟨inactiveKey id, .revisionIs item.revision, .delete⟩ = false) :
    activateFence st id item = (.error (.generic (actConflictMsg id)), st) := by
  have hall : (activateCondacts id item).all (condHolds st) = false := by
    simp [activateCondacts, List.all_cons, hfail]
  simp [activateFence, bAtomicWrite, hall]

theorem activate_run (st : BackendState) (id : CertAuthID) (item : Item)
    (hchk : id.check = true)
    (hread : lookupItem (inactiveKey id) st.items = some item) :
    activateCertAuthority st id = activateFence st id item := by
  simp [activateCertAuthority, bGet, hchk, hread]

theorem activate_absent (st : BackendState) (id : CertAuthID)
    (hchk : id.check = true)
    (habs : lookupItem (inactiveKey id) st.items = none) :
    activateCertAuthority st id = (.error (.generic (notInactiveMsg id)), st) := by
  simp [activateCertAuthority, bGet, hchk, habs]

/-! ## Claim C5 -/

/-- C5 counterexample: on an identity whose Active slot is absent,
DeactivateCertAuthority performs no write but fails with a generic
trace.Errorf error, which is not a NotFound-kind error. -/
theorem c5_counterexample :
    deactivateCertAuthority stEmpty idSample =
      (.error (.generic (notActiveMsg idSample)), stEmpty) ∧
    (Err.generic (notActiveMsg idSample)).isNotFoundKind = false := by
  exact ⟨rfl, rfl⟩

/-- C5 (amended): for every identity whose Active slot is absent,
DeactivateCertAuthority fails with a generic error (trace.Errorf, carrying
no error kind) whose message says the authority is not currently active, and
performs no write; the error is not NotFound-kind. -/
theorem c5_deactivate_absent_generic (st : BackendState) (id : CertAuthID)
    (hchk : id.check = true)
    (habs : lookupItem (activeKey id) st.items = none) :
    deactivateCertAuthority st id = (.error (.generic (notActiveMsg id)), st) ∧
    (deactivateCertAuthority st id).2 = st ∧
    (Err.generic (notActiveMsg id)).isNotFoundKind = false := by
  have h := deactivate_absent st id hchk habs
  exact ⟨h, by rw [h], rfl⟩

/-- C5 witness: the amended theorem applied at a concrete empty store. -/
theorem c5_witness :
    idSample.check = true ∧
    lookupItem (activeKey idSample) stEmpty.items = none ∧
    (deactivateCertAuthority stEmpty idSample =
        (.error (.generic (notActiveMsg idSample)), stEmpty) ∧
      (deactivateCertAuthority stEmpty idSample).2 = stEmpty ∧
      (Err.generic (notActiveMsg idSample)).isNotFoundKind = false) :=
  ⟨by decide, by decide,
    c5_deactivate_absent_generic stEmpty idSample (by decide) (by decide)⟩

/-! ## Claim C4 -/

/-- C4 counterexample: two racing deactivations of the same identity — the
first succeeds; the loser's fenced batch fails its revision condition because
of the concurrent modification, yet the call returns a generic trace.Errorf
error, not a Conflict-kind (CompareFailed) error. -/
theorem c4_counterexample :
    (deactivateCertAuthority stSample idSample).1 = .ok () ∧
    condHolds (deactivateCertAuthority stSample idSample).2
      ⟨activeKey idSample, .revisionIs itemSample.revision, .delete⟩ = false ∧
    deactivateFence (deactivateCertAuthority stSample idSample).2 idSample
        itemSample =
      (.error (.generic (deactConflictMsg idSample)),
       (deactivateCertAuthority stSample idSample).2) ∧
    (Err.generic (deactConflictMsg idSample)).isConflict = false := by
  exact ⟨rfl, rfl, rfl, rfl⟩

/-- C4 (amended): when the fenced atomic batch inside Deactivate (or
symmetrically Activate) fails its revision condition because of a concurrent
modification, the call returns a generic concurrent-modification error
(trace.Errorf), which is not the Conflict kind produced by revision mismatch
or failed compare-and-swap; of two racing Deactivate calls on the same
identity exactly one succeeds, the other receiving that generic error. -/
theorem c4_rotation_conflict_generic (st : BackendState) (id : CertAuthID)
    (item : Item) (hchk : id.check = true)
    (hread : lookupItem (activeKey id) st.items = some item) :
    (∃ st', deactivateCertAuthority st id = (.ok (), st') ∧
      lookupItem (activeKey id) st'.items = none ∧
      deactivateFence st' id item =
        (.error (.generic (deactConflictMsg id)), st')) ∧
    (∀ st1 : BackendState,
      condHolds st1 ⟨activeKey id, .revisionIs item.revision, .delete⟩ = false →
      deactivateFence st1 id item =
        (.error (.generic (deactConflictMsg id)), st1)) ∧
    (Err.generic (deactConflictMsg id)).isConflict = false ∧
    (∀ (st1 : BackendState) (item1 : Item),
      condHolds st1 ⟨inactiveKey id, .revisionIs item1.revision, .delete⟩ = false →
      activateFence st1 id item1 =
        (.error (.generic (actConflictMsg id)), st1)) ∧
    (Err.generic (actConflictMsg id)).isConflict = false := by
  have hrun := deactivate_run st id item hchk hread
  have hs := deactivateFence_success st id item hread
  refine ⟨⟨applyActs st (deactivateCondacts id item), ?_, hs.2.1, ?_⟩,
    fun st1 hf => deactivateFence_fail st1 id item hf, rfl,
    fun st1 item1 hf => activateFence_fail st1 id item1 hf, rfl⟩
  · rw [hrun]; exact hs.1
  · apply deactivateFence_fail
    simp [condHolds, hs.2.1]

/-- C4 witness: the amended theorem applied at a concrete one-item store. -/
theorem c4_witness :
    idSample.check = true ∧
    lookupItem (activeKey idSample) stSample.items = some itemSample ∧
    ((∃ st', deactivateCertAuthority stSample idSample = (.ok (), st') ∧
      lookupItem (activeKey idSample) st'.items = none ∧
      deactivateFence st' idSample itemSample =
        (.error (.generic (deactConflictMsg idSample)), st')) ∧
    (∀ st1 : BackendState,
      condHolds st1
        ⟨activeKey idSample, .revisionIs itemSample.revision, .delete⟩ = false →
      deactivateFence st1 idSample itemSample =
        (.error (.generic (deactConflictMsg idSample)), st1)) ∧
    (Err.generic (deactConflictMsg idSample)).isConflict = false ∧
    (∀ (st1 : BackendState) (item1 : Item),
      condHolds st1
        ⟨inactiveKey idSample, .revisionIs item1.revision, .delete⟩ = false →
      activateFence st1 idSample item1 =
        (.error (.generic (actConflictMsg idSample)), st1)) ∧
    (Err.generic (actConflictMsg idSample)).isConflict = false) :=
  ⟨by decide, by decide,
    c4_rotation_conflict_generic stSample idSample itemSample
      (by decide) (by decide)⟩

/-! ## Claim C3 -/

/-- C3: Deactivate (and symmetrically Activate) moves the record between
slots as one atomic unit: it reads the source-slot item, then submits a
single atomic batch deleting the source key under RevisionEquals of the read
revision and putting the same bytes at the destination key; if the revision
condition fails the whole transition aborts with the state unchanged, and on
success the record resides in exactly one slot — never duplicated, never
lost. -/
theorem c3_rotation_single_slot (st : BackendState) (id : CertAuthID)
    (item : Item) (hchk : id.check = true)
    (hread : lookupItem (activeKey id) st.items = some item) :
    deactivateCertAuthority st id = deactivateFence st id item ∧
    deactivateCondacts id item =
      [⟨activeKey id, .revisionIs item.revision, .delete⟩,
       ⟨inactiveKey id, .whatever, .put item.value item.expires⟩] ∧
    (∃ st', deactivateCertAuthority st id = (.ok (), st') ∧
      lookupItem (activeKey id) st'.items = none ∧
      (∃ i r, lookupItem (inactiveKey id) st'.items =
        some { key := inactiveKey id, value := item.value,
               expires := item.expires, id := i, revision := r }) ∧
      (∀ k : Key, k ≠ activeKey id → k ≠ inactiveKey id →
        lookupItem k st'.items = lookupItem k st.items) ∧
      ¬((lookupItem (activeKey id) st'.items).isSome = true ∧
        (lookupItem (inactiveKey id) st'.items).isSome = true)) ∧
    (∀ st1 : BackendState,
      condHolds st1 ⟨activeKey id, .revisionIs item.revision, .delete⟩ = false →
      ∃ e, deactivateFence st1 id item = (.error e, st1)) ∧
    (∀ (st2 : BackendState) (item2 : Item),
      lookupItem (inactiveKey id) st2.items = some item2 →
      activateCertAuthority st2 id = activateFence st2 id item2 ∧
      activateCondacts id item2 =
        [⟨inactiveKey id, .revisionIs item2.revision, .delete⟩,
         ⟨activeKey id, .whatever, .put item2.value item2.expires⟩] ∧
      (∃ st2', activateCertAuthority st2 id = (.ok (), st2') ∧
        lookupItem (inactiveKey id) st2'.items = none ∧
        (∃ i r, lookupItem (activeKey id) st2'.items =
          some { key := activeKey id, value := item2.value,
                 expires := item2.expires, id := i, revision := r }) ∧
        (∀ k : Key, k ≠ activeKey id → k ≠ inactiveKey id →
          lookupItem k st2'.items = lookupItem k st2.items)) ∧
      (∀ st3 : BackendState,
        condHolds st3 ⟨inactiveKey id, .revisionIs item2.revision, .delete⟩ = false →
        ∃ e, activateFence st3 id item2 = (.error e, st3))) := by
  have hrun := deactivate_run st id item hchk hread
  have hs := deactivateFence_success st id item hread
  refine ⟨hrun, rfl,
    ⟨applyActs st (deactivateCondacts id item), ?_, hs.2.1,
      ⟨st.nextID, st.nextRev, hs.2.2.1⟩, hs.2.2.2, ?_⟩,
    fun st1 hf => ⟨_, deactivateFence_fail st1 id item hf⟩, ?_⟩
  · rw [hrun]; exact hs.1
  · rw [hs.2.1]; simp
  · intro st2 item2 hread2
    have hrun2 := activate_run st2 id item2 hchk hread2
    have hs2 := activateFence_success st2 id item2 hread2
    refine ⟨hrun2, rfl,
      ⟨applyActs st2 (activateCondacts id item2), ?_, hs2.2.1,
        ⟨st2.nextID, st2.nextRev, hs2.2.2.1⟩, hs2.2.2.2⟩,
      fun st3 hf => ⟨_, activateFence_fail st3 id item2 hf⟩⟩
    rw [hrun2]; exact hs2.1

/-- C3 witness: the rotation theorem applied at a concrete one-item store. -/
theorem c3_witness :
    idSample.check = true ∧
    lookupItem (activeKey idSample) stSample.items = some itemSample ∧
    (∃ st', deactivateCertAuthority stSample idSample = (.ok (), st') ∧
      lookupItem (activeKey idSample) st'.items = none ∧
      (∃ i r, lookupItem (inactiveKey idSample) st'.items =
        some { key := inactiveKey idSample, value := itemSample.value,
               expires := itemSample.expires, id := i, revision := r }) ∧
      (∀ k : Key, k ≠ activeKey idSample → k ≠ inactiveKey idSample →
        lookupItem k st'.items = lookupItem k stSample.items) ∧
      ¬((lookupItem (activeKey idSample) st'.items).isSome = true ∧
        (lookupItem (inactiveKey idSample) st'.items).isSome = true)) :=
  ⟨by decide, by decide,
    (c3_rotation_single_slot stSample idSample itemSample
      (by decide) (by decide)).2.2.1⟩

/-! ## Claim C10 -/

/-- C10: GetCertAuthority with loadSigningKeys=false returns the Active-slot
record with all secret signing-key material stripped, while
loadSigningKeys=true returns it with the key material intact; the redaction
affects only the returned value — every other field is preserved and the
read produces no new backend state. -/
theorem c10_get_redaction (st : BackendState) (id : CertAuthID) (item : Item)
    (d : CAData) (hchk : id.check = true)
    (hread : lookupItem (activeKey id) st.items = some item)
    (hun : unmarshalCertAuthority item.value
      ⟨some item.id, some item.expires, some item.revision⟩ = some d)
    (hval : validateCertAuthority d = true) :
    getCertAuthority st id true = .ok d ∧
    getCertAuthority st id false = .ok (removeCASecrets d) ∧
    (removeCASecrets d).signingKeys = [] ∧
    (removeCASecrets d).caType = d.caType ∧
    (removeCASecrets d).domainName = d.domainName ∧
    (removeCASecrets d).roleMap = d.roleMap ∧
    (removeCASecrets d).publicKeys = d.publicKeys ∧
    (removeCASecrets d).revision = d.revision ∧
    (removeCASecrets d).resourceID = d.resourceID ∧
    (removeCASecrets d).expiry = d.expiry := by
  refine ⟨?_, ?_, rfl, rfl, rfl, rfl, rfl, rfl, rfl, rfl⟩
  · simp [getCertAuthority, bGet, hchk, hread, hun, hval, setSigningKeys]
  · simp [getCertAuthority, bGet, hchk, hread, hun, hval, setSigningKeys]

/-- C10 witness: the redaction theorem applied at a concrete store. -/
theorem c10_witness :
    idSample.check = true ∧
    lookupItem (activeKey idSample) stSample.items = some itemSample ∧
    (getCertAuthority stSample idSample true = .ok caSample ∧
      getCertAuthority stSample idSample false = .ok (removeCASecrets caSample) ∧
      (removeCASecrets caSample).signingKeys = []) :=
  ⟨by decide, by decide,
    (fun h => ⟨h.1, h.2.1, h.2.2.1⟩)
      (c10_get_redaction stSample idSample itemSample caSample
        (by decide) (by decide) (by decide) (by decide))⟩

/-! ## Claim C6 -/

/-- C6: CompareAndSwapCertAuthority fails with the Conflict kind and performs
no write when the stored Active value differs from expected under the
semantic-equivalence predicate; when they are equivalent it issues a
single-key backend compare-and-swap using the just-read item as its base,
and a racing writer between the read and the swap (the stored value no
longer matches the base, or the key has vanished) surfaces as the same
Conflict outcome. -/
theorem c6_cas_conflict (st : BackendState) (new_ expected actual : CAData)
    (item : Item) (hval : validateCertAuthority new_ = true)
    (hread : lookupItem (casKey new_) st.items = some item)
    (hun : unmarshalCertAuthority item.value ⟨none, none, none⟩ = some actual) :
    (certAuthoritiesEquivalent actual expected = false →
      compareAndSwapCertAuthority st new_ expected = (.error .compareFailed, st)) ∧
    Err.compareFailed.isConflict = true ∧
    (certAuthoritiesEquivalent actual expected = true →
      compareAndSwapCertAuthority st new_ expected = casSwapStep st new_ item) ∧
    (∀ (st1 : BackendState) (cur : Item),
      lookupItem (casKey new_) st1.items = some cur →
      cur.value ≠ item.value →
      casSwapStep st1 new_ item = (.error .compareFailed, st1)) ∧
    (∀ st1 : BackendState, lookupItem (casKey new_) st1.items = none →
      casSwapStep st1 new_ item = (.error .compareFailed, st1)) := by
  have hkey : item.key = casKey new_ := lookupItem_key hread
  refine ⟨?_, rfl, ?_, ?_, ?_⟩
  · intro hne
    simp [compareAndSwapCertAuthority, bGet, hval, hread, hun, hne]
  · intro heq
    simp [compareAndSwapCertAuthority, bGet, hval, hread, hun, heq]
  · intro st1 cur hcur hne
    simp [casSwapStep, bCompareAndSwap, hkey, hcur, hne]
  · intro st1 hnone
    simp [casSwapStep, bCompareAndSwap, hkey, hnone]

/-- C6 witness: the compare-and-swap theorem applied at a concrete store. -/
theorem c6_witness :
    validateCertAuthority caSample = true ∧
    lookupItem (casKey caSample) stSample.items = some itemSample ∧
    unmarshalCertAuthority itemSample.value ⟨none, none, none⟩ = some caSample ∧
    ((∀ st1 : BackendState, lookupItem (casKey caSample) st1.items = none →
      casSwapStep st1 caSample itemSample = (.error .compareFailed, st1))) :=
  ⟨by decide, by decide, by decide,
    (c6_cas_conflict stSample caSample caSample caSample itemSample
      (by decide) (by decide) (by decide)).2.2.2.2⟩

/-! ## Claim C7 -/

/-- C7: UpsertCertAuthority is a no-op (state unchanged, so stored revision
unchanged) exactly when a value-equivalent record already occupies the
Active slot; otherwise it performs exactly one unconditional overwrite of the
Active slot, propagating the new expiry and leaving every other key
untouched. -/
theorem c7_upsert_noop_or_one_write (st : BackendState) (ca : CAData)
    (hval : validateCertAuthority ca = true) :
    (upsertSkip st ca = true → upsertCertAuthority st ca = (.ok (), st)) ∧
    (upsertSkip st ca = true ↔
      ∃ existing, getCertAuthority st ca.getID true = .ok existing ∧
        certAuthoritiesEquivalent existing ca = true) ∧
    (upsertSkip st ca = false →
      ∃ st', upsertCertAuthority st ca = (.ok (), st') ∧
        lookupItem (activeKey ca.getID) st'.items =
          some { key := activeKey ca.getID, value := marshalCertAuthority ca,
                 expires := ca.expiry, id := st.nextID,
                 revision := st.nextRev } ∧
        (∀ k : Key, k ≠ activeKey ca.getID →
          lookupItem k st'.items = lookupItem k st.items) ∧
        st'.nextRev = st.nextRev + 1) := by
  refine ⟨?_, ?_, ?_⟩
  · intro h
    simp [upsertCertAuthority, hval, h]
  · cases hg : getCertAuthority st ca.getID true with
    | ok existing =>
      constructor
      · intro h
        refine ⟨existing, rfl, ?_⟩
        simpa [upsertSkip, hg] using h
      · rintro ⟨e, he, heq⟩
        injection he with hee
        simp [upsertSkip, hg, hee, heq]
    | error e =>
      constructor
      · intro h
        simp [upsertSkip, hg] at h
      · rintro ⟨e', he', heq⟩
        simp at he'
  · intro h
    refine ⟨afterActivePut st ca, ?_, ?_, ?_, rfl⟩
    · simp [upsertCertAuthority, hval, h, bPut, afterActivePut, storedActive]
    · exact lookupItem_setItem_self
        { key := activeKey ca.getID, value := marshalCertAuthority ca,
          expires := ca.expiry, id := st.nextID, revision := st.nextRev }
        st.items
    · intro k hk
      exact lookupItem_setItem_ne _ _ hk

/-- C7 witness: the upsert theorem applied at a concrete store without a
stored equivalent record (so exactly one write occurs). -/
theorem c7_witness :
    validateCertAuthority caSample = true ∧
    upsertSkip stEmpty caSample = false ∧
    (∃ st', upsertCertAuthority stEmpty caSample = (.ok (), st') ∧
      lookupItem (activeKey caSample.getID) st'.items =
        some { key := activeKey caSample.getID,
               value := marshalCertAuthority caSample,
               expires := caSample.expiry, id := stEmpty.nextID,
               revision := stEmpty.nextRev } ∧
      (∀ k : Key, k ≠ activeKey caSample.getID →
        lookupItem k st'.items = lookupItem k stEmpty.items) ∧
      st'.nextRev = stEmpty.nextRev + 1) :=
  ⟨by decide, by decide,
    (c7_upsert_noop_or_one_write stEmpty caSample (by decide)).2.2 (by decide)⟩

/-! ## Claim C8 -/

/-- C8: UpdateCertAuthority issues a revision-conditioned write; on success
it returns a copy of the input carrying the backend's newly assigned
revision and resource-id (the input value itself is unchanged — the
embedding is pure and the code clones before mutating); on revision mismatch
it returns the Conflict kind with the state untouched and no retry. -/
theorem c8_update_revision_fenced (st : BackendState) (ca : CAData)
    (cur : Item) (hval : validateCertAuthority ca = true)
    (hcur : lookupItem (activeKey ca.getID) st.items = some cur) :
    (cur.revision = ca.revision →
      ∃ st', updateCertAuthority st ca =
        (.ok { ca with revision := st.nextRev, resourceID := st.nextID }, st') ∧
        lookupItem (activeKey ca.getID) st'.items =
          some { key := activeKey ca.getID, value := marshalCertAuthority ca,
                 expires := ca.expiry, id := st.nextID,
                 revision := st.nextRev } ∧
        (∀ k : Key, k ≠ activeKey ca.getID →
          lookupItem k st'.items = lookupItem k st.items)) ∧
    (cur.revision ≠ ca.revision →
      updateCertAuthority st ca = (.error .compareFailed, st) ∧
      Err.compareFailed.isConflict = true) := by
  constructor
  · intro hrev
    refine ⟨afterActivePut st ca, ?_, ?_, ?_⟩
    · simp [updateCertAuthority, hval, bConditionalUpdate, hcur, hrev, bPut,
        afterActivePut, storedActive]
    · exact lookupItem_setItem_self
        { key := activeKey ca.getID, value := marshalCertAuthority ca,
          expires := ca.expiry, id := st.nextID, revision := st.nextRev }
        st.items
    · intro k hk
      exact lookupItem_setItem_ne _ _ hk
  · intro hrev
    refine ⟨?_, rfl⟩
    simp [updateCertAuthority, hval, bConditionalUpdate, hcur, hrev]

/-- C8 witness: the revision-fenced update theorem applied at a concrete
store, in the matching-revision case. -/
theorem c8_witness :
    validateCertAuthority caSample = true ∧
    lookupItem (activeKey caSample.getID) stSample.items = some itemSample ∧
    itemSample.revision = caSample.revision ∧
    (∃ st', updateCertAuthority stSample caSample =
      (.ok { caSample with revision := stSample.nextRev, resourceID := stSample.nextID }, st') ∧
      lookupItem (activeKey caSample.getID) st'.items =
        some { key := activeKey caSample.getID,
               value := marshalCertAuthority caSample,
               expires := caSample.expiry, id := stSample.nextID,
               revision := stSample.nextRev } ∧
      (∀ k : Key, k ≠ activeKey caSample.getID →
        lookupItem k st'.items = lookupItem k stSample.items)) :=
  ⟨by decide, by decide, by decide,
    (c8_update_revision_fenced stSample caSample itemSample
      (by decide) (by decide)).1 (by decide)⟩

/-! ## Batch-create lemmas -/

theorem createCondacts_ok (cas : List CAData) (names : List String)
    (acts : List ConditionalAction)
    (hval : ∀ ca ∈ cas, validateCertAuthority ca = true) :
    createCondacts cas names acts =
      .ok (namesAcc cas names, acts ++ casActs cas) := by
  induction cas generalizing names acts with
  | nil => simp [createCondacts, namesAcc, casActs]
  | cons c rest ih =>
    simp only [createCondacts, hval c (List.mem_cons_self c rest), if_true]
    rw [ih _ _ (fun x hx => hval x (List.mem_cons_of_mem c hx))]
    simp [namesAcc, casActs, List.append_assoc]

theorem mem_namesAcc_of_mem (cas : List CAData) (names : List String)
    (x : String) (hx : x ∈ names) : x ∈ namesAcc cas names := by
  induction cas generalizing names with
  | nil => simpa [namesAcc] using hx
  | cons c rest ih =>
    rw [namesAcc]
    apply ih
    by_cases hc : c.domainName ∈ names
    · simpa [hc] using hx
    · simp only [hc, if_false]
      exact List.mem_append_left _ hx

theorem mem_namesAcc_self (cas : List CAData) (names : List String)
    (ca : CAData) (hca : ca ∈ cas) : ca.domainName ∈ namesAcc cas names := by
  induction cas generalizing names with
  | nil => cases hca
  | cons c rest ih =>
    rw [namesAcc]
    rcases List.mem_cons.mp hca with h | h
    · subst h
      apply mem_namesAcc_of_mem
      by_cases hc : ca.domainName ∈ names
      · simp [hc]
      · simp [hc]
    · exact ih _ h

theorem casActs_all_iff (st : BackendState) (cas : List CAData) :
    ((casActs cas).all (condHolds st) = true ↔
      ∀ ca ∈ cas, lookupItem (activeKey ca.getID) st.items = none) := by
  induction cas with
  | nil => simp [casActs]
  | cons c rest ih =>
    simp [casActs, List.all_cons, condHolds, ih, Option.isNone_iff_eq_none,
      List.forall_mem_cons]

theorem casActs_keys (cas : List CAData) (a : ConditionalAction)
    (ha : a ∈ casActs cas) :
    ∃ ca ∈ cas, a.key = activeKey ca.getID ∨ a.key = inactiveKey ca.getID := by
  induction cas with
  | nil => cases ha
  | cons c rest ih =>
    rcases List.mem_cons.mp ha with h | h
    · exact ⟨c, List.mem_cons_self c rest, Or.inl (by rw [h])⟩
    · rcases List.mem_cons.mp h with h2 | h2
      · exact ⟨c, List.mem_cons_self c rest, Or.inr (by rw [h2])⟩
      · obtain ⟨cb, hcb, hor⟩ := ih h2
        exact ⟨cb, List.mem_cons_of_mem c hcb, hor⟩

theorem applyActs_casActs_lookup (cas : List CAData) (st : BackendState)
    (ca0 : CAData) (h0 : ca0 ∈ cas)
    (hA : cas.Pairwise (fun a b => activeKey a.getID ≠ activeKey b.getID))
    (hI : ∀ a ∈ cas, ∀ b ∈ cas, activeKey a.getID ≠ inactiveKey b.getID) :
    ∃ i r, lookupItem (activeKey ca0.getID)
        (applyActs st (casActs cas)).items =
      some { key := activeKey ca0.getID, value := marshalCertAuthority ca0,
             expires := ca0.expiry, id := i, revision := r } := by
  induction cas generalizing st with
  | nil => cases h0
  | cons c rest ih =>
    rcases List.mem_cons.mp h0 with h | h
    · subst h
      have hne2 : ∀ a ∈ casActs rest, a.key ≠ activeKey ca0.getID := by
        intro a ha
        obtain ⟨cb, hcb, hor⟩ := casActs_keys rest a ha
        rcases hor with hk | hk
        · rw [hk]
          exact fun hh => (List.rel_of_pairwise_cons hA hcb) hh.symm
        · rw [hk]
          exact fun hh =>
            hI ca0 (List.mem_cons_self ca0 rest) cb
              (List.mem_cons_of_mem ca0 hcb) hh.symm
      refine ⟨st.nextID, st.nextRev, ?_⟩
      have hstep : applyActs st (casActs (ca0 :: rest)) =
          applyActs (applyAction (applyAction st
            ⟨activeKey ca0.getID, .notExists,
              .put (marshalCertAuthority ca0) ca0.expiry⟩)
            ⟨inactiveKey ca0.getID, .whatever, .delete⟩) (casActs rest) := rfl
      rw [hstep, lookupItem_applyActs_ne (casActs rest) _ hne2]
      simp only [applyAction]
      rw [lookupItem_removeItem_ne _ (activeKey_ne_inactiveKey ca0.getID)]
      exact lookupItem_setItem_self
        { key := activeKey ca0.getID, value := marshalCertAuthority ca0,
          expires := ca0.expiry, id := st.nextID, revision := st.nextRev }
        st.items
    · have hstep : applyActs st (casActs (c :: rest)) =
          applyActs (applyAction (applyAction st
            ⟨activeKey c.getID, .notExists,
              .put (marshalCertAuthority c) c.expiry⟩)
            ⟨inactiveKey c.getID, .whatever, .delete⟩) (casActs rest) := rfl
      rw [hstep]
      exact ih _ h (List.Pairwise.of_cons hA)
        (fun a haa b hbb =>
          hI a (List.mem_cons_of_mem c haa) b (List.mem_cons_of_mem c hbb))

/-! ## Claim C2 -/

/-- C2: CreateCertAuthorities is all-or-nothing. If any batch member's
Active key already exists, the call fails with AlreadyExists carrying the
batch's cluster names (so every affected identity is named), the backend
state is unchanged, and a Get of any not-yet-existing member still returns
NotFound; if no Active key exists, the whole batch is created in one atomic
write and every member's Active slot then holds its marshaled value. -/
theorem c2_create_all_or_nothing (st : BackendState) (cas : List CAData)
    (hval : ∀ ca ∈ cas, validateCertAuthority ca = true) :
    ((∃ ca ∈ cas, lookupItem (activeKey ca.getID) st.items ≠ none) →
      createCertAuthorities st cas =
        (.error (.alreadyExists (namesAcc cas [])), st) ∧
      (∀ ca ∈ cas, ca.domainName ∈ namesAcc cas []) ∧
      (∀ ca ∈ cas, lookupItem (activeKey ca.getID) st.items = none →
        getCertAuthority st ca.getID true = .error .notFound)) ∧
    ((∀ ca ∈ cas, lookupItem (activeKey ca.getID) st.items = none) →
      cas.Pairwise (fun a b => activeKey a.getID ≠ activeKey b.getID) →
      (∀ a ∈ cas, ∀ b ∈ cas, activeKey a.getID ≠ inactiveKey b.getID) →
      ∃ st', createCertAuthorities st cas = (.ok (), st') ∧
        ∀ ca ∈ cas, ∃ i r, lookupItem (activeKey ca.getID) st'.items =
          some { key := activeKey ca.getID,
                 value := marshalCertAuthority ca, expires := ca.expiry,
                 id := i, revision := r }) := by
  have hcond := createCondacts_ok cas [] [] hval
  constructor
  · rintro ⟨ca, hca, hsome⟩
    have hallf : (casActs cas).all (condHolds st) = false := by
      cases hall : (casActs cas).all (condHolds st) with
      | false => rfl
      | true => exact absurd ((casActs_all_iff st cas).mp hall ca hca) hsome
    refine ⟨?_, fun cb hcb => mem_namesAcc_self cas [] cb hcb, ?_⟩
    · simp [createCertAuthorities, hcond, bAtomicWrite, hallf]
    · intro cb hcb habs
      have hchk : cb.getID.check = true := hval cb hcb
      simp [getCertAuthority, bGet, hchk, habs]
  · intro hnone hA hI
    have hallt : (casActs cas).all (condHolds st) = true :=
      (casActs_all_iff st cas).mpr hnone
    refine ⟨applyActs st (casActs cas), ?_, ?_⟩
    · simp [createCertAuthorities, hcond, bAtomicWrite, hallt]
    · intro ca hca
      exact applyActs_casActs_lookup cas st ca hca hA hI

/-- C2 witness: a two-member batch where the first member's Active key
already exists fails AlreadyExists naming both clusters and leaves the
other member absent; the same batch against an empty store creates both. -/
theorem c2_witness :
    (∀ ca ∈ [caSample, caSecond], validateCertAuthority ca = true) ∧
    lookupItem (activeKey caSample.getID) stSample.items ≠ none ∧
    createCertAuthorities stSample [caSample, caSecond] =
      (.error (.alreadyExists (namesAcc [caSample, caSecond] [])), stSample) ∧
    namesAcc [caSample, caSecond] [] = ["example.com", "other.example.com"] ∧
    getCertAuthority stSample caSecond.getID true = .error .notFound ∧
    (∃ st', createCertAuthorities stEmpty [caSample, caSecond] =
      (.ok (), st') ∧
      ∀ ca ∈ [caSample, caSecond], ∃ i r,
        lookupItem (activeKey ca.getID) st'.items =
          some { key := activeKey ca.getID,
                 value := marshalCertAuthority ca, expires := ca.expiry,
                 id := i, revision := r }) := by
  have h1 := c2_create_all_or_nothing stSample [caSample, caSecond]
    (by decide)
  have h2 := c2_create_all_or_nothing stEmpty [caSample, caSecond]
    (by decide)
  have hex : ∃ ca ∈ [caSample, caSecond],
      lookupItem (activeKey ca.getID) stSample.items ≠ none :=
    ⟨caSample, by decide, by decide⟩
  refine ⟨by decide, by decide, (h1.1 hex).1, by decide, ?_, ?_⟩
  · exact (h1.1 hex).2.2 caSecond (by decide) (by decide)
  · exact h2.2 (by decide) (by decide) (by decide)

/-! ## Claim C9 -/

/-- C9: exact-prefix scan boundaries prevent cross-type leakage even when
one type name is a textual prefix of another: GetCertAuthorities scans only
keys extending the exact prefix of its type, and DeleteAllCertAuthorities
retains every active record of every other type. -/
theorem c9_exact_type_boundaries (st : BackendState) (t1 t2 n : String)
    (hne : t1 ≠ t2) (h1 : '/' ∉ t1.data) (h2 : '/' ∉ t2.data)
    (hpfx : t1.data <+: t2.data) :
    (∀ item ∈ st.items, item.key = activeKey ⟨t2, n⟩ →
      item ∈ (deleteAllCertAuthorities st t1).items) ∧
    (∀ item ∈ st.items, item.key = activeKey ⟨t2, n⟩ →
      item ∉ rangeScan st (exactKey [authoritiesPfx, t1])) ∧
    (∀ item ∈ rangeScan st (exactKey [authoritiesPfx, t1]),
      exactKey [authoritiesPfx, t1] <+: item.key) ∧
    (∀ item ∈ st.items, ¬ (exactKey [authoritiesPfx, t1] <+: item.key) →
      item ∈ (deleteAllCertAuthorities st t1).items) ∧
    (caTypeCheck t1 = true →
      getCertAuthorities st t1 true =
        .ok ((rangeScan st (exactKey [authoritiesPfx, t1])).map
          (decodeListed true))) := by
  have hkey : ¬ (exactKey [authoritiesPfx, t1] <+: activeKey ⟨t2, n⟩) :=
    fun hp => hne (exactKey_pfx_active h1 h2 hp)
  refine ⟨?_, ?_, ?_, ?_, ?_⟩
  · intro item hmem hk
    apply List.mem_filter.mpr
    refine ⟨hmem, ?_⟩
    rw [hk]
    simpa using hkey
  · intro item hmem hk hscan
    have := (List.mem_filter.mp hscan).2
    rw [hk] at this
    exact hkey (by simpa using this)
  · intro item hscan
    have := (List.mem_filter.mp hscan).2
    simpa using this
  · intro item hmem hk
    apply List.mem_filter.mpr
    exact ⟨hmem, by simpa using hk⟩
  · intro hchk
    simp [getCertAuthorities, hchk]

/-- C9 witness: the boundary theorem applied at types "foo" and
"foo_some_suffix" over a store holding one active record of each. -/
theorem c9_witness :
    ("foo" : String) ≠ "foo_some_suffix" ∧
    ("foo" : String).data <+: ("foo_some_suffix" : String).data ∧
    itemOf "foo_some_suffix" "b" 2 ∈ stTypes.items ∧
    (itemOf "foo_some_suffix" "b" 2).key =
      activeKey ⟨"foo_some_suffix", "b"⟩ ∧
    itemOf "foo_some_suffix" "b" 2 ∈
      (deleteAllCertAuthorities stTypes "foo").items ∧
    itemOf "foo_some_suffix" "b" 2 ∉
      rangeScan stTypes (exactKey [authoritiesPfx, "foo"]) := by
  have h := c9_exact_type_boundaries stTypes "foo" "foo_some_suffix" "b"
    (by decide) (by decide) (by decide) (by decide)
  refine ⟨by decide, by decide, by decide, by decide, ?_, ?_⟩
  · exact h.1 (itemOf "foo_some_suffix" "b" 2) (by decide) (by decide)
  · exact h.2.1 (itemOf "foo_some_suffix" "b" 2) (by decide) (by decide)

/-! ## Claim C1 -/

/-- C1 (code bug): over one corrupted and three valid stored items,
GetCertAuthorities does not abort and does decode the three valid
authorities, but it returns a four-slot listing with a nil hole for the
corrupted item rather than exactly the three valid ones: the code
preallocates the result slice at the scan's length and leaves the zero
value in place of each item it skips. -/
theorem c1_partial_listing_hole :
    getCertAuthorities stListing "host" false =
      .ok [none, some (removeCASecrets (caOf "host" "n1" 1)),
        some (removeCASecrets (caOf "host" "n2" 2)),
        some (removeCASecrets (caOf "host" "n3" 3))] ∧
    getCertAuthorities stListing "host" false ≠
      .ok [some (removeCASecrets (caOf "host" "n1" 1)),
        some (removeCASecrets (caOf "host" "n2" 2)),
        some (removeCASecrets (caOf "host" "n3" 3))] := by
  have hres : getCertAuthorities stListing "host" false =
      .ok [none, some (removeCASecrets (caOf "host" "n1" 1)),
        some (removeCASecrets (caOf "host" "n2" 2)),
        some (removeCASecrets (caOf "host" "n3" 3))] := rfl
  refine ⟨hres, ?_⟩
  intro hcontra
  rw [hres] at hcontra
  simp at hcontra

end Trust
